import Mathlib

/-
Verification development for `src/include/data_stream.hpp` of TOSDataBridge
(namespace `tosdb_data_stream`).

The container `Object< Ty, SecTy, GenTy, UseSecondary, Allocator >` is a
bounded window over a `std::deque<Ty>` with:
  - `_qBound`   (`size_t`)  : the bound B,
  - `_qCount`   (`size_t`)  : the count C,
  - `*_mrkCount` (`size_t`) : the marker cell, initialised with `new size_t(-1)`,
  - `_myImplObj` (`std::deque<Ty>`) : the primary sequence P, and for the
    paired specialisation also `_myImplSecObj` (`std::deque<SecTy>`) : Q.

The embedding below models `size_t` as `Nat` (with explicit wrap-around where
C++ performs a conversion between `int` and `size_t`), `int` as `Int` (values
stay far from 2^31 in every reachable state, so no `int` overflow arises),
deques as `List`, value-initialised elements as `default`, and the throwing
reads as `Except StreamError`.  `dest` buffers passed by pointer are modelled
as lists whose length is the buffer length that C++ receives separately.

On the platforms this code targets `int` is 32 bits and `size_t` is 64 bits.
-/

namespace tosdb_data_stream

/-- Conversion of a C++ `int` value to `size_t` (64-bit, two-complement
wrap-around), as happens when storing `beg - 1` into `*_mrkCount`. -/
def int_to_size (i : Int) : Nat := (i % (2 ^ 64 : Int)).toNat

/-- Conversion of a C++ `size_t` value to `int` (truncation to 32 bits,
reinterpreted as signed), as happens when `*_mrkCount` is passed for the
`int end` parameter of `copy`. -/
def size_to_int (n : Nat) : Int :=
  let m : Nat := n % 2 ^ 32
  if m < 2 ^ 31 then (m : Int) else (m : Int) - 2 ^ 32

/-- `Interface::MAX_BOUND_SIZE = INT_MAX`. -/
def MAX_BOUND_SIZE : Nat := 2 ^ 31 - 1

/-- The error kinds the stream can raise (`tosdb_data_stream::size_violation`,
`out_of_range`, `invalid_argument`, `unset_marker`). -/
inductive StreamError where
  | sizeViolation
  | outOfRange
  | invalidArgument
  | unsetMarker
  deriving DecidableEq

instance {ε α : Type} [DecidableEq ε] [DecidableEq α] : DecidableEq (Except ε α) := fun a b =>
  match a, b with
  | .ok x, .ok y => if h : x = y then .isTrue (by rw [h]) else .isFalse (by simp [h])
  | .error x, .error y => if h : x = y then .isTrue (by rw [h]) else .isFalse (by simp [h])
  | .ok _, .error _ => .isFalse (by simp)
  | .error _, .ok _ => .isFalse (by simp)

/-- State of a non-paired `Object< Ty, SecTy, GenTy, false >`.
`mrkCount` is the current contents of the `size_t` cell `*_mrkCount`. -/
structure Object (α : Type) where
  qBound : Nat
  qCount : Nat
  mrkCount : Nat
  myImplObj : List α
  deriving DecidableEq

variable {α β : Type} [Inhabited α] [Inhabited β]

/-- `Object(size_t sz)`: bound clamped by `std::min<size_t>(sz, MAX_BOUND_SIZE)`,
deque of that many value-initialised elements, count 0, `new size_t(-1)`
marker. -/
def mkObject (sz : Nat) : Object α :=
  { qBound := min sz MAX_BOUND_SIZE
    qCount := 0
    mrkCount := int_to_size (-1)
    myImplObj := List.replicate (min sz MAX_BOUND_SIZE) default }

/-- `Object::_push` / `Object::push`: `push_front` then `pop_back`; increment
`_qCount` while `_qCount < _qBound`; increment `*_mrkCount` while
`*_mrkCount < (_qBound - 1)` — an unsigned `size_t` comparison, with
`_qBound - 1` computed in `size_t` arithmetic. -/
def push (s : Object α) (v : α) : Object α :=
  { s with
    myImplObj := (v :: s.myImplObj).dropLast
    qCount := if s.qCount < s.qBound then s.qCount + 1 else s.qCount
    mrkCount :=
      if s.mrkCount < int_to_size ((s.qBound : Int) - 1) then s.mrkCount + 1
      else s.mrkCount }

/-- A sequence of pushes, oldest first. -/
def pushAll (s : Object α) (vs : List α) : Object α :=
  vs.foldl push s

/-- `Object::_check_adj(end, beg, impl)`: verify `_qBound == impl.size()`,
normalise negative indices by adding the size, range-check, reject
`beg > end`.  Returns the normalised `(end, beg)` (C++ updates them through
references). -/
def check_adj (e b : Int) (impl : List α) (qBound : Nat) :
    Except StreamError (Int × Int) :=
  let sz : Int := (impl.length : Int)
  if (qBound : Int) ≠ sz then
    .error .sizeViolation
  else
    let e2 := if e < 0 then e + sz else e
    let b2 := if b < 0 then b + sz else b
    if b2 ≥ sz ∨ e2 ≥ sz ∨ b2 < 0 ∨ e2 < 0 then
      .error .outOfRange
    else if b2 > e2 then
      .error .invalidArgument
    else
      .ok (e2, b2)

/-- `Object::_copy_to_ptr(impl, dest, sz, end, beg)`: copy the iterator range
`[begin+beg, begin + min(sz+beg, min(end+1, _qCount)))` to `dest` when it is
non-empty.  `dest` is modelled as the destination buffer of length `sz`;
positions past the copied range keep their previous contents. -/
def copy_to_ptr (impl : List α) (qCount : Nat) (dest : List α) (sz e b : Nat) :
    List α :=
  let eIdx := min (sz + b) (min (e + 1) qCount)
  if b < eIdx then
    let src := (impl.drop b).take (eIdx - b)
    src ++ dest.drop src.length
  else
    dest

/-- `Object::copy(Ty* dest, size_t sz, int end, int beg)`: after `_check_adj`,
either the `end == beg` fast path `*dest = beg ? at(beg) : front()` or
`_copy_to_ptr`; finally `*_mrkCount = beg - 1` (an `int` stored into the
`size_t` cell). -/
def copy (s : Object α) (dest : List α) (e b : Int) :
    Except StreamError (List α × Object α) := do
  let (e2, b2) ← check_adj e b s.myImplObj s.qBound
  let dest2 :=
    if e2 = b2 then
      dest.set 0
        (if b2 = 0 then s.myImplObj.headD default
         else s.myImplObj.getD b2.toNat default)
    else
      copy_to_ptr s.myImplObj s.qCount dest dest.length e2.toNat b2.toNat
  .ok (dest2, { s with mrkCount := int_to_size (b2 - 1) })

/-- `Object::copy_using_atomic_marker(Ty* dest, size_t sz, int beg)`: the guard
`*_mrkCount < 0` compares the unsigned `size_t` marker against 0, then the
marker is passed as the `int end` argument of `copy` (64-to-32-bit
truncation). -/
def copy_using_atomic_marker (s : Object α) (dest : List α) (b : Int) :
    Except StreamError (List α × Object α) :=
  if s.mrkCount < int_to_size 0 then
    .error .unsetMarker
  else
    copy s dest (size_to_int s.mrkCount) b

/-- `Object::operator[](int indx)`: the raw `indx == 0` case returns
`front()` and sets `*_mrkCount = -1` without any check; otherwise
`_check_adj(indx, dummy, _myImplObj)` normalises `indx`, the marker becomes
`indx - 1` and the element `_myImplObj.at(indx)` is returned (wrapped in
`generic_type`, which holds exactly the element value). -/
def opIndex (s : Object α) (indx : Int) :
    Except StreamError (α × Object α) :=
  if indx = 0 then
    .ok (s.myImplObj.headD default, { s with mrkCount := int_to_size (-1) })
  else do
    let (i2, _) ← check_adj indx 0 s.myImplObj s.qBound
    .ok (s.myImplObj.getD i2.toNat default,
         { s with mrkCount := int_to_size (i2 - 1) })

/-- `std::deque::resize(sz)`: truncate at the tail when shrinking, append
value-initialised elements at the tail when growing. -/
def resizeImpl (l : List α) (n : Nat) : List α :=
  l.take n ++ List.replicate (n - l.length) default

/-- `Object::bound_size(size_t sz)` (non-paired): clamp by
`std::min<size_t>(sz, MAX_BOUND_SIZE)`, resize the deque, lower `_qCount`
when `sz < _qCount`, set and return the new `_qBound`.  The marker cell is
not touched. -/
def bound_size (s : Object α) (sz : Nat) : Object α × Nat :=
  let sz2 := min sz MAX_BOUND_SIZE
  ({ s with
      myImplObj := resizeImpl s.myImplObj sz2
      qCount := if sz2 < s.qCount then sz2 else s.qCount
      qBound := sz2 }, sz2)

/-- `Object::secondary_vector(int end, int beg)` (non-paired): after
`_check_adj`, return `secondary_vector_type(min<size_t>(++end - beg, _qCount))`
— that many value-initialised secondary elements.  The marker is not
touched. -/
def secondary_vector (β : Type) [Inhabited β] (s : Object α) (e b : Int) :
    Except StreamError (List β) := do
  let (e2, b2) ← check_adj e b s.myImplObj s.qBound
  .ok (List.replicate (min (int_to_size (e2 + 1 - b2)) s.qCount) default)

/-- The range path of `Object::copy` with the `end == beg` fast path removed:
`_check_adj` then `_copy_to_ptr` then `*_mrkCount = beg - 1`.  This is the
comparison point the spec demands for the single-element fast path: the
observable result of `copy` must equal the range path over `[beg, beg]`. -/
def copyRangePath (s : Object α) (dest : List α) (e b : Int) :
    Except StreamError (List α × Object α) := do
  let (e2, b2) ← check_adj e b s.myImplObj s.qBound
  .ok (copy_to_ptr s.myImplObj s.qCount dest dest.length e2.toNat b2.toNat,
       { s with mrkCount := int_to_size (b2 - 1) })

/-- State of the paired specialisation `Object< Ty, SecTy, GenTy, true >`:
the base object plus the secondary deque `_myImplSecObj`. -/
structure PObject (α β : Type) extends Object α where
  myImplSecObj : List β
  deriving DecidableEq

/-- Paired `Object(size_t sz)`: secondary deque of the clamped size plus the
base constructor on the clamped size. -/
def mkPObject (sz : Nat) : PObject α β :=
  { toObject := mkObject (min sz MAX_BOUND_SIZE)
    myImplSecObj := List.replicate (min sz MAX_BOUND_SIZE) default }

/-- Paired `Object::_push(item, sec)`: `push_front`/`pop_back` on both deques
under one lock, then the same `_qCount` and `*_mrkCount` updates as the
base. -/
def pushPair (s : PObject α β) (v : α) (sec : β) : PObject α β :=
  { s with
    myImplObj := (v :: s.myImplObj).dropLast
    myImplSecObj := (sec :: s.myImplSecObj).dropLast
    qCount := if s.qCount < s.qBound then s.qCount + 1 else s.qCount
    mrkCount :=
      if s.mrkCount < int_to_size ((s.qBound : Int) - 1) then s.mrkCount + 1
      else s.mrkCount }

/-- A sequence of paired pushes, oldest first. -/
def pushAllPair (s : PObject α β) (ps : List (α × β)) : PObject α β :=
  ps.foldl (fun t p => pushPair t p.1 p.2) s

/-- Paired `Object::both(int indx)`: `operator[](indx)` on the base (which
sets the marker), then `front()` of the secondary deque when the raw index
is 0, else `_check_adj(indx, dummy, _myImplSecObj)` and `at(indx)`. -/
def both (s : PObject α β) (indx : Int) :
    Except StreamError ((α × β) × PObject α β) := do
  let (g, s1) ← opIndex s.toObject indx
  let s2 := { s with mrkCount := s1.mrkCount }
  if indx = 0 then
    .ok ((g, s.myImplSecObj.headD default), s2)
  else do
    let (i2, _) ← check_adj indx 0 s.myImplSecObj s.qBound
    .ok ((g, s.myImplSecObj.getD i2.toNat default), s2)

/-- Paired `Object::bound_size(size_t sz)`: clamp, resize the secondary
deque, then the base `bound_size` on the clamped value. -/
def bound_size_paired (s : PObject α β) (sz : Nat) : PObject α β × Nat :=
  let sz2 := min sz MAX_BOUND_SIZE
  let r := bound_size s.toObject sz2
  ({ toObject := r.1, myImplSecObj := resizeImpl s.myImplSecObj sz2 }, r.2)

/-!  A small heap model for the ownership claims about the copy constructor.
`Object` owns its marker through the pointer `_mrkCount`; the heap holds the
`size_t` cells and an `ObjRef` holds the address of its cell. -/

/-- The marker cells currently allocated, addressed by position. -/
structure Heap where
  cells : List Nat
  deriving DecidableEq

/-- Read the `size_t` cell at address `a`. -/
def readCell (h : Heap) (a : Nat) : Nat := h.cells.getD a 0

/-- Write the `size_t` cell at address `a`. -/
def writeCell (h : Heap) (a : Nat) (v : Nat) : Heap := ⟨h.cells.set a v⟩

/-- An `Object` whose marker is held by address, as in the C++ source where
`_mrkCount` is a `size_t*`. -/
structure ObjRef (α : Type) where
  qBound : Nat
  qCount : Nat
  mrkAddr : Nat
  myImplObj : List α
  deriving DecidableEq

/-- `Object(size_t sz)` in the heap model: `new size_t(-1)` allocates a fresh
cell holding `size_t(-1)`. -/
def mkObjectRef (α : Type) [Inhabited α] (sz : Nat) (h : Heap) : ObjRef α × Heap :=
  ({ qBound := min sz MAX_BOUND_SIZE
     qCount := 0
     mrkAddr := h.cells.length
     myImplObj := List.replicate (min sz MAX_BOUND_SIZE) default },
   ⟨h.cells ++ [int_to_size (-1)]⟩)

/-- `Object(const _myTy& stream)`: the copy constructor copies the deque, the
bound and the count by value, installs a fresh mutex — and initialises
`_mrkCount( stream._mrkCount )`, i.e. it copies the marker POINTER, so the
copy addresses the same cell as the source. -/
def copyCtorRef (src : ObjRef α) : ObjRef α :=
  { qBound := src.qBound
    qCount := src.qCount
    mrkAddr := src.mrkAddr
    myImplObj := src.myImplObj }

/-- View an `ObjRef` together with the heap as a plain `Object` (the marker
field holds the contents of the object's cell). -/
def toObjectAt (o : ObjRef α) (h : Heap) : Object α :=
  ⟨o.qBound, o.qCount, readCell h o.mrkAddr, o.myImplObj⟩

/-- `Object::copy` in the heap model: run `copy` on the viewed state and
store the resulting marker back through the object's pointer. -/
def copyRef (o : ObjRef α) (h : Heap) (dest : List α) (e b : Int) :
    Except StreamError (List α × Heap) :=
  match copy (toObjectAt o h) dest e b with
  | .ok (d, s2) => .ok (d, writeCell h o.mrkAddr s2.mrkCount)
  | .error err => .error err

/-- The heap after a heap-model operation (its default is returned on an
error, in which case the C++ call did not get to its marker write). -/
def heapAfter (r : Except StreamError (List α × Heap)) (d : Heap) : Heap :=
  match r with
  | .ok (_, h) => h
  | .error _ => d

/-- The stream state after a `copy`-family call (the default is returned on
an error). -/
def stateAfter (r : Except StreamError (List α × Object α)) (d : Object α) :
    Object α :=
  match r with
  | .ok (_, s) => s
  | .error _ => d

/-!  ## Helper lemmas -/

theorem headD_eq_getD_zero (l : List α) (d : α) : l.headD d = l.getD 0 d := by
  cases l <;> rfl

theorem take_append_take (xs ys : List α) (n : Nat) :
    (xs ++ ys.take n).take n = (xs ++ ys).take n := by
  rw [List.take_append_eq_append_take, List.take_append_eq_append_take,
      List.take_take]
  have h : min (n - xs.length) n = n - xs.length :=
    Nat.min_eq_left (Nat.sub_le n xs.length)
  rw [h]

theorem getD_take_of_lt (l : List α) (n i : Nat) (d : α) (h : i < n) :
    (l.take n).getD i d = l.getD i d := by
  simp only [List.getD, List.get?_eq_getElem?, List.getElem?_take_of_lt h]

theorem getD_append_left (l l2 : List α) (i : Nat) (d : α) (h : i < l.length) :
    (l ++ l2).getD i d = l.getD i d := by
  simp only [List.getD, List.get?_eq_getElem?, List.getElem?_append_left h]

theorem take_one_drop (l : List α) (b : Nat) (d : α) (h : b < l.length) :
    (l.drop b).take 1 = [l.getD b d] := by
  rw [List.drop_eq_getElem_cons h, List.getD_eq_getElem l d h]
  rfl

/-- `int_to_size` is the identity on `int` values in `[0, 2^63)`. -/
theorem int_to_size_of_small (n : Nat) (h : n < 2 ^ 63) :
    int_to_size (n : Int) = n := by
  unfold int_to_size
  omega

/-- `size_to_int` is the identity on small `size_t` values. -/
theorem size_to_int_of_small (n : Nat) (h : n < 2 ^ 31) :
    size_to_int n = (n : Int) := by
  unfold size_to_int
  simp only []
  have h1 : n % 2 ^ 32 = n := Nat.mod_eq_of_lt (by omega)
  rw [h1, if_pos h]

/-- `_check_adj` succeeds and is the identity on an in-range normalised
index pair. -/
theorem check_adj_ok (e b : Nat) (impl : List α) (qB : Nat)
    (hlen : impl.length = qB) (hbe : b ≤ e) (he : e < qB) :
    check_adj (e : Int) (b : Int) impl qB = .ok ((e : Int), (b : Int)) := by
  unfold check_adj
  simp only [hlen]
  rw [if_neg (by omega)]
  rw [if_neg (by omega), if_neg (by omega)]
  rw [if_neg (by omega), if_neg (by omega)]

/-- `operator[]` at a non-negative in-bound index: returns position `i` of the
deque and sets the marker to `i - 1` (as a `size_t`). -/
theorem opIndex_spec (s : Object α) (i : Nat)
    (hlen : s.myImplObj.length = s.qBound) (hi : i < s.qBound) :
    opIndex s (i : Int) =
      .ok (s.myImplObj.getD i default,
           { s with mrkCount := int_to_size ((i : Int) - 1) }) := by
  unfold opIndex
  by_cases h0 : i = 0
  · subst h0
    rw [if_pos (by norm_num)]
    rw [headD_eq_getD_zero]
    norm_num
  · rw [if_neg (by exact_mod_cast h0)]
    have hca := check_adj_ok i 0 s.myImplObj s.qBound hlen (Nat.zero_le i) hi
    rw [Nat.cast_zero] at hca
    rw [hca]
    rfl

/-- State after a push sequence from a consistent state: the deque holds the
pushed values newest first (padded by the old contents), the count saturates
at the bound, the bound is unchanged. -/
theorem pushAll_state (vs : List α) (s : Object α)
    (hlen : s.myImplObj.length = s.qBound) (hc : s.qCount ≤ s.qBound) :
    (pushAll s vs).myImplObj = (vs.reverse ++ s.myImplObj).take s.qBound
    ∧ (pushAll s vs).qCount = min (s.qCount + vs.length) s.qBound
    ∧ (pushAll s vs).qBound = s.qBound := by
  induction vs generalizing s with
  | nil =>
      refine ⟨?_, ?_, rfl⟩
      · simp only [pushAll, List.foldl_nil, List.reverse_nil, List.nil_append,
          ← hlen, List.take_length]
      · simp only [pushAll, List.foldl_nil, List.length_nil, Nat.add_zero]
        omega
  | cons v vs ih =>
      have hstep : pushAll s (v :: vs) = pushAll (push s v) vs := rfl
      have hlen1 : (push s v).myImplObj.length = (push s v).qBound := by
        simp only [push, List.dropLast_eq_take, List.length_cons, List.length_take,
          hlen]
        omega
      have hc1 : (push s v).qCount ≤ (push s v).qBound := by
        simp only [push]
        split <;> omega
      have hB1 : (push s v).qBound = s.qBound := rfl
      obtain ⟨h1, h2, h3⟩ := ih (push s v) hlen1 hc1
      refine ⟨?_, ?_, by rw [hstep, h3, hB1]⟩
      · rw [hstep, h1, hB1]
        have himpl : (push s v).myImplObj = (v :: s.myImplObj).take s.qBound := by
          simp only [push, List.dropLast_eq_take, List.length_cons, hlen]
          rfl
        rw [himpl, take_append_take, List.reverse_cons, List.append_assoc]
        rfl
      · rw [hstep, h2, hB1]
        simp only [push, List.length_cons]
        split <;> omega

/-- State after a paired push sequence from a consistent state. -/
theorem pushAllPair_state (ps : List (α × β)) (s : PObject α β)
    (hlen : s.myImplObj.length = s.qBound)
    (hlen2 : s.myImplSecObj.length = s.qBound)
    (hc : s.qCount ≤ s.qBound) :
    (pushAllPair s ps).myImplObj
        = ((ps.map Prod.fst).reverse ++ s.myImplObj).take s.qBound
    ∧ (pushAllPair s ps).myImplSecObj
        = ((ps.map Prod.snd).reverse ++ s.myImplSecObj).take s.qBound
    ∧ (pushAllPair s ps).qCount = min (s.qCount + ps.length) s.qBound
    ∧ (pushAllPair s ps).qBound = s.qBound := by
  induction ps generalizing s with
  | nil =>
      refine ⟨?_, ?_, ?_, rfl⟩
      · simp only [pushAllPair, List.foldl_nil, List.map_nil, List.reverse_nil,
          List.nil_append, ← hlen, List.take_length]
      · simp only [pushAllPair, List.foldl_nil, List.map_nil, List.reverse_nil,
          List.nil_append, ← hlen2, List.take_length]
      · simp only [pushAllPair, List.foldl_nil, List.length_nil, Nat.add_zero]
        omega
  | cons p ps ih =>
      have hstep : pushAllPair s (p :: ps) = pushAllPair (pushPair s p.1 p.2) ps := rfl
      have hlen1 : (pushPair s p.1 p.2).myImplObj.length = (pushPair s p.1 p.2).qBound := by
        simp only [pushPair, List.dropLast_eq_take, List.length_cons,
          List.length_take, hlen]
        omega
      have hlen21 : (pushPair s p.1 p.2).myImplSecObj.length = (pushPair s p.1 p.2).qBound := by
        simp only [pushPair, List.dropLast_eq_take, List.length_cons,
          List.length_take, hlen2]
        omega
      have hc1 : (pushPair s p.1 p.2).qCount ≤ (pushPair s p.1 p.2).qBound := by
        simp only [pushPair]
        split <;> omega
      have hB1 : (pushPair s p.1 p.2).qBound = s.qBound := rfl
      obtain ⟨h1, h2, h3, h4⟩ := ih (pushPair s p.1 p.2) hlen1 hlen21 hc1
      refine ⟨?_, ?_, ?_, by rw [hstep, h4, hB1]⟩
      · rw [hstep, h1, hB1]
        have himpl : (pushPair s p.1 p.2).myImplObj = (p.1 :: s.myImplObj).take s.qBound := by
          simp only [pushPair, List.dropLast_eq_take, List.length_cons, hlen]
          rfl
        rw [himpl, take_append_take, List.map_cons, List.reverse_cons,
          List.append_assoc]
        rfl
      · rw [hstep, h2, hB1]
        have himpl : (pushPair s p.1 p.2).myImplSecObj
            = (p.2 :: s.myImplSecObj).take s.qBound := by
          simp only [pushPair, List.dropLast_eq_take, List.length_cons, hlen2]
          rfl
        rw [himpl, take_append_take, List.map_cons, List.reverse_cons,
          List.append_assoc]
        rfl
      · rw [hstep, h3, hB1]
        simp only [pushPair, List.length_cons]
        split <;> omega

/-- `copy` reduced past a successful `_check_adj`. -/
theorem copy_ok_of_check (s : Object α) (dest : List α) (e b e2 b2 : Int)
    (h : check_adj e b s.myImplObj s.qBound = .ok (e2, b2)) :
    copy s dest e b =
      .ok ((if e2 = b2 then
              dest.set 0
                (if b2 = 0 then s.myImplObj.headD default
                 else s.myImplObj.getD b2.toNat default)
            else
              copy_to_ptr s.myImplObj s.qCount dest dest.length e2.toNat b2.toNat),
           { s with mrkCount := int_to_size (b2 - 1) }) := by
  unfold copy
  rw [h]
  rfl

/-- `copyRangePath` reduced past a successful `_check_adj`. -/
theorem copyRangePath_ok_of_check (s : Object α) (dest : List α) (e b e2 b2 : Int)
    (h : check_adj e b s.myImplObj s.qBound = .ok (e2, b2)) :
    copyRangePath s dest e b =
      .ok (copy_to_ptr s.myImplObj s.qCount dest dest.length e2.toNat b2.toNat,
           { s with mrkCount := int_to_size (b2 - 1) }) := by
  unfold copyRangePath
  rw [h]
  rfl

/-- `secondary_vector` reduced past a successful `_check_adj`. -/
theorem secondary_vector_ok_of_check (s : Object α) (e b e2 b2 : Int)
    (h : check_adj e b s.myImplObj s.qBound = .ok (e2, b2)) :
    secondary_vector β s e b =
      .ok (List.replicate (min (int_to_size (e2 + 1 - b2)) s.qCount)
             (default : β)) := by
  unfold secondary_vector
  rw [h]
  rfl

/-- `both` at raw index 0, reduced past the base `operator[]`. -/
theorem both_ok_zero (s : PObject α β) (g : α) (s1 : Object α)
    (h : opIndex s.toObject 0 = .ok (g, s1)) :
    both s 0 =
      .ok ((g, s.myImplSecObj.headD default),
           { s with mrkCount := s1.mrkCount }) := by
  unfold both
  rw [h]
  rfl

/-- `both` at a non-zero raw index, reduced past the base `operator[]` and the
secondary `_check_adj`. -/
theorem both_ok_pos (s : PObject α β) (indx : Int) (g : α) (s1 : Object α)
    (i2 b2 : Int) (hne : ¬ indx = 0)
    (h : opIndex s.toObject indx = .ok (g, s1))
    (h2 : check_adj indx 0 s.myImplSecObj s.qBound = .ok (i2, b2)) :
    both s indx =
      .ok ((g, s.myImplSecObj.getD i2.toNat default),
           { s with mrkCount := s1.mrkCount }) := by
  unfold both
  rw [h]
  show (if indx = 0 then
          Except.ok ((g, s.myImplSecObj.headD default),
            { s with mrkCount := s1.mrkCount })
        else do
          let (i3, _) ← check_adj indx 0 s.myImplSecObj s.qBound
          Except.ok ((g, s.myImplSecObj.getD i3.toNat default),
            { s with mrkCount := s1.mrkCount })) =
      Except.ok ((g, s.myImplSecObj.getD i2.toNat default),
        ({ s with mrkCount := s1.mrkCount } : PObject α β))
  rw [if_neg hne, h2]
  rfl

/-!  ## Claims -/

/-- Claim C1 (code bug): the claim says `copy_using_atomic_marker` raises
`unset_marker` iff `M == -1`.  In the source `*_mrkCount` is a `size_t`, so
the guard `*_mrkCount < 0` is an unsigned comparison that is always false:
the exception is never raised.  At the failing input — a fresh stream of
bound 4 whose marker is unset — the call returns normally: the marker
(`size_t(-1)`) truncates to the `int` end argument `-1`, so the call behaves
like a full-range `copy`, writes nothing (count is 0) and leaves the state
unchanged, instead of raising `unset_marker`. -/
theorem claim_C1_unset_marker_never_raised :
    copy_using_atomic_marker (mkObject 4 : Object Int) (List.replicate 4 0) 0 =
      .ok (List.replicate 4 0, (mkObject 4 : Object Int)) := by
  decide

/-- Claim C2 (code bug): the claim says a push from the unset marker state
sets `M = 0`.  In the source the advance guard `*_mrkCount < (_qBound - 1)`
compares the `size_t` value `SIZE_MAX` (the representation of `-1`) against
`_qBound - 1`, which is false, so the push leaves the marker unset instead of
setting it to 0.  Evaluated at the failing input (fresh stream of bound 2,
one push). -/
theorem claim_C2_push_from_unset_marker :
    (push (mkObject 2 : Object Int) 5).mrkCount = int_to_size (-1)
    ∧ (push (mkObject 2 : Object Int) 5).mrkCount ≠ 0 := by
  decide

/-- Claim C4 (code bug): the claim says a copy shares no mutable state with
the source (fresh marker cell).  The copy constructor initialises
`_mrkCount( stream._mrkCount )` — it copies the marker POINTER — so copy and
source address the same `size_t` cell (and `~Object` double-frees it).  In
the heap model: construct a source of bound 3, set its marker to 1 with
`copy(dest, 1, 2, 2)`, copy-construct; the copy has the same marker address,
and a `copy(dest, 1, 0, 0)` performed on the copy overwrites the source's
marker (1 becomes `size_t(-1)`), contradicting the claim. -/
theorem claim_C4_copy_shares_marker_cell :
    (copyCtorRef (mkObjectRef Int 3 ⟨[]⟩).1).mrkAddr
        = (mkObjectRef Int 3 ⟨[]⟩).1.mrkAddr
    ∧ readCell (heapAfter (copyRef (mkObjectRef Int 3 ⟨[]⟩).1
          (mkObjectRef Int 3 ⟨[]⟩).2 [0] 2 2) ⟨[]⟩)
        ((mkObjectRef Int 3 ⟨[]⟩).1.mrkAddr) = 1
    ∧ readCell (heapAfter (copyRef (copyCtorRef (mkObjectRef Int 3 ⟨[]⟩).1)
          (heapAfter (copyRef (mkObjectRef Int 3 ⟨[]⟩).1
             (mkObjectRef Int 3 ⟨[]⟩).2 [0] 2 2) ⟨[]⟩)
          [0] 0 0) ⟨[]⟩)
        ((mkObjectRef Int 3 ⟨[]⟩).1.mrkAddr) = int_to_size (-1) := by
  refine ⟨rfl, by decide, by decide⟩

/-- Claim C10: `operator[](0)` never raises: the `indx == 0` branch runs
before `_check_adj` and before any size check, sets the marker to
`size_t(-1)` and returns `front()` — for any state whatsoever, even one
whose deque length disagrees with the bound; and on a freshly constructed
stream of any requested capacity (count 0) it returns the value-initialised
element rather than failing. -/
theorem claim_C10_at_zero_never_fails (s : Object Int) (B : Nat) :
    opIndex s 0 =
      .ok (s.myImplObj.headD 0, { s with mrkCount := int_to_size (-1) })
    ∧ opIndex (mkObject B : Object Int) 0 =
      .ok (0, (mkObject B : Object Int)) := by
  constructor
  · rfl
  · unfold opIndex
    rw [if_pos rfl]
    have h1 : (mkObject B : Object Int).myImplObj.headD default = 0 := by
      show (List.replicate (min B MAX_BOUND_SIZE) (default : Int)).headD default = 0
      cases min B MAX_BOUND_SIZE <;> rfl
    rw [h1]
    rfl

/-- Claim C3: after any push sequence on a fresh stream, for every
`i ∈ [0, size())` the indexed read `operator[](i)` returns the `(i+1)`-th
most recent pushed value, and sets the marker to `i - 1` as a `size_t`
(for `i = 0` this is `size_t(-1)`, the unset value, exactly as the
special-cased branch stores; for `i > 0` it is `i - 1`; a non-negative `i`
is its own normalisation). -/
theorem claim_C3_indexed_read (B : Nat) (vs : List Int) (i : Nat)
    (hi : i < (pushAll (mkObject B : Object Int) vs).qCount) :
    opIndex (pushAll (mkObject B : Object Int) vs) (i : Int) =
      .ok (vs.reverse.getD i 0,
           { pushAll (mkObject B : Object Int) vs with
               mrkCount := int_to_size ((i : Int) - 1) }) := by
  obtain ⟨h1, h2, h3⟩ := pushAll_state vs (mkObject B : Object Int)
    (by simp [mkObject]) (Nat.zero_le _)
  have hq0 : (mkObject B : Object Int).qBound = min B MAX_BOUND_SIZE := rfl
  have hc0 : (mkObject B : Object Int).qCount = 0 := rfl
  have hl0 : (mkObject B : Object Int).myImplObj.length = min B MAX_BOUND_SIZE := by
    simp [mkObject]
  rw [hc0, Nat.zero_add, hq0] at h2
  rw [hq0] at h3
  have hivs : i < vs.length := by rw [h2] at hi; omega
  have hib0 : i < min B MAX_BOUND_SIZE := by rw [h2] at hi; omega
  have hlen : (pushAll (mkObject B : Object Int) vs).myImplObj.length
      = (pushAll (mkObject B : Object Int) vs).qBound := by
    rw [h1, h3, List.length_take, List.length_append, List.length_reverse,
      hl0, hq0]
    omega
  have hspec := opIndex_spec (pushAll (mkObject B : Object Int) vs) i hlen
    (by rw [h3]; exact hib0)
  have hval : (pushAll (mkObject B : Object Int) vs).myImplObj.getD i default
      = vs.reverse.getD i 0 := by
    rw [h1, hq0, getD_take_of_lt _ _ _ _ hib0,
      getD_append_left _ _ _ _ (by simpa using hivs)]
    rfl
  rw [hspec, hval]

/-- Witness for claim C3: bound 3, pushes 1,2,3,4 (so the window is
`[4,3,2]`), index 1: returns 3, marker becomes 0. -/
theorem claim_C3_witness :
    1 < (pushAll (mkObject 3 : Object Int) [1, 2, 3, 4]).qCount
    ∧ opIndex (pushAll (mkObject 3 : Object Int) [1, 2, 3, 4]) ((1 : Nat) : Int) =
      .ok (([1, 2, 3, 4] : List Int).reverse.getD 1 0,
           { pushAll (mkObject 3 : Object Int) [1, 2, 3, 4] with
               mrkCount := int_to_size (((1 : Nat) : Int) - 1) }) :=
  ⟨by decide, claim_C3_indexed_read 3 [1, 2, 3, 4] 1 (by decide)⟩

theorem resizeImpl_length (l : List α) (n : Nat) : (resizeImpl l n).length = n := by
  simp only [resizeImpl, List.length_append, List.length_take,
    List.length_replicate]
  omega

theorem getD_append_right (l l2 : List α) (i : Nat) (d : α) (h : l.length ≤ i) :
    (l ++ l2).getD i d = l2.getD (i - l.length) d := by
  simp only [List.getD, List.get?_eq_getElem?, List.getElem?_append_right h]

theorem getD_replicate (m j : Nat) (a d : α) (hj : j < m) :
    (List.replicate m a).getD j d = a := by
  simp only [List.getD, List.get?_eq_getElem?, List.getElem?_replicate,
    if_pos hj, Option.getD_some]

theorem resizeImpl_getD (l : List α) (n i : Nat) (d : α) (hi : i < n) :
    (resizeImpl l n).getD i d
      = if i < l.length then l.getD i d else (default : α) := by
  unfold resizeImpl
  by_cases h : i < l.length
  · rw [if_pos h]
    rw [getD_append_left _ _ _ _ (by rw [List.length_take]; omega)]
    exact getD_take_of_lt l n i d hi
  · rw [if_neg h]
    rw [getD_append_right _ _ _ _ (by rw [List.length_take]; omega)]
    rw [List.length_take]
    exact getD_replicate _ _ _ _ (by omega)

/-- Counterexample to claim C5 as stated: (a) `bound_size(0)` yields bound 0
— the claim says the requested capacity is clamped to `[1, INT_MAX]`, which
would give 1; (b) shrink a bound-3 stream whose marker is 1 (set by a
single-element `copy` with `beg = 2`) to bound 1: the marker stays 1 — the
claim says it is clamped to `newB - 1 = 0`.  `bound_size` in the source
never touches `*_mrkCount` and only clamps from above. -/
theorem claim_C5_counterexample :
    (bound_size (mkObject 3 : Object Int) 0).2 = 0
    ∧ (bound_size (stateAfter
          (copy (pushAll (mkObject 3 : Object Int) [1, 2, 3]) [0] 2 2)
          (mkObject 3)) 1).1.mrkCount = 1 := by
  decide

/-- Claim C5 (amended): `bound_size(newB)` clamps `newB` from above to
INT_MAX only (no lower clamp), resizes P (and Q when paired) to the clamped
value — keeping the elements at positions below the old length (truncating
the tail when shrinking) and filling with value-initialised elements past
the old length when growing — lowers C to `newB` when `newB < C`, leaves the
marker unchanged, and returns the new bound. -/
theorem claim_C5_bound_size_amended (s : Object Int) (t : PObject Int Int)
    (n i : Nat) (hi : i < min n MAX_BOUND_SIZE) :
    (bound_size s n).2 = min n MAX_BOUND_SIZE
    ∧ (bound_size s n).1.qBound = min n MAX_BOUND_SIZE
    ∧ (bound_size s n).1.myImplObj.length = min n MAX_BOUND_SIZE
    ∧ (bound_size s n).1.myImplObj.getD i 0
        = (if i < s.myImplObj.length then s.myImplObj.getD i 0 else 0)
    ∧ (bound_size s n).1.qCount = min s.qCount (min n MAX_BOUND_SIZE)
    ∧ (bound_size s n).1.mrkCount = s.mrkCount
    ∧ (bound_size_paired t n).1.myImplSecObj.length = min n MAX_BOUND_SIZE
    ∧ (bound_size_paired t n).1.mrkCount = t.mrkCount := by
  refine ⟨rfl, rfl, ?_, ?_, ?_, rfl, ?_, rfl⟩
  · exact resizeImpl_length s.myImplObj (min n MAX_BOUND_SIZE)
  · rw [show (bound_size s n).1.myImplObj
        = resizeImpl s.myImplObj (min n MAX_BOUND_SIZE) from rfl]
    rw [resizeImpl_getD _ _ _ _ hi]
    rfl
  · show (if min n MAX_BOUND_SIZE < s.qCount then min n MAX_BOUND_SIZE
          else s.qCount) = min s.qCount (min n MAX_BOUND_SIZE)
    split <;> omega
  · exact resizeImpl_length t.myImplSecObj (min n MAX_BOUND_SIZE)

/-- Witness for the amended claim C5: a bound-3 stream with three pushes and
a fresh paired stream, resized to 2, inspected at position 1. -/
theorem claim_C5_witness :
    1 < min 2 MAX_BOUND_SIZE
    ∧ ((bound_size (pushAll (mkObject 3 : Object Int) [1, 2, 3]) 2).2
          = min 2 MAX_BOUND_SIZE
      ∧ (bound_size (pushAll (mkObject 3 : Object Int) [1, 2, 3]) 2).1.qBound
          = min 2 MAX_BOUND_SIZE
      ∧ (bound_size (pushAll (mkObject 3 : Object Int) [1, 2, 3]) 2).1.myImplObj.length
          = min 2 MAX_BOUND_SIZE
      ∧ (bound_size (pushAll (mkObject 3 : Object Int) [1, 2, 3]) 2).1.myImplObj.getD 1 0
          = (if 1 < (pushAll (mkObject 3 : Object Int) [1, 2, 3]).myImplObj.length
             then (pushAll (mkObject 3 : Object Int) [1, 2, 3]).myImplObj.getD 1 0 else 0)
      ∧ (bound_size (pushAll (mkObject 3 : Object Int) [1, 2, 3]) 2).1.qCount
          = min (pushAll (mkObject 3 : Object Int) [1, 2, 3]).qCount (min 2 MAX_BOUND_SIZE)
      ∧ (bound_size (pushAll (mkObject 3 : Object Int) [1, 2, 3]) 2).1.mrkCount
          = (pushAll (mkObject 3 : Object Int) [1, 2, 3]).mrkCount
      ∧ (bound_size_paired (mkPObject 3 : PObject Int Int) 2).1.myImplSecObj.length
          = min 2 MAX_BOUND_SIZE
      ∧ (bound_size_paired (mkPObject 3 : PObject Int Int) 2).1.mrkCount
          = (mkPObject 3 : PObject Int Int).mrkCount) :=
  ⟨by decide,
   claim_C5_bound_size_amended (pushAll (mkObject 3) [1, 2, 3]) (mkPObject 3) 2 1
     (by decide)⟩

/-- Claim C6: for a normalised range `beg < end` within the bound, `copy`
writes exactly `min(destLen, end-beg+1, C-beg)` elements
`P[beg], P[beg+1], …` (newest first) into `dest` starting at position 0
(positions past the written range keep their old contents, a subtraction
that bottoms out at 0 when `beg ≥ C`), and afterwards the marker is
`beg - 1` as a `size_t`. -/
theorem claim_C6_copy_range (s : Object Int) (dest : List Int) (e b : Nat)
    (hlen : s.myImplObj.length = s.qBound) (hbe : b < e) (he : e < s.qBound) :
    copy s dest (e : Int) (b : Int) =
      .ok ((s.myImplObj.drop b).take
              (min dest.length (min (e - b + 1) (s.qCount - b)))
            ++ dest.drop (min dest.length (min (e - b + 1) (s.qCount - b))),
           { s with mrkCount := int_to_size ((b : Int) - 1) }) := by
  rw [copy_ok_of_check s dest (e : Int) (b : Int) (e : Int) (b : Int)
    (check_adj_ok e b s.myImplObj s.qBound hlen (Nat.le_of_lt hbe) he)]
  rw [if_neg (by omega)]
  unfold copy_to_ptr
  simp only [Int.toNat_natCast]
  have hn : min (dest.length + b) (min (e + 1) s.qCount) - b
      = min dest.length (min (e - b + 1) (s.qCount - b)) := by
    omega
  by_cases hlt : b < min (dest.length + b) (min (e + 1) s.qCount)
  · rw [if_pos hlt, hn]
    have hsl : ((s.myImplObj.drop b).take
        (min dest.length (min (e - b + 1) (s.qCount - b)))).length
        = min dest.length (min (e - b + 1) (s.qCount - b)) := by
      rw [List.length_take, List.length_drop]
      omega
    rw [hsl]
  · rw [if_neg hlt]
    have h0 : min dest.length (min (e - b + 1) (s.qCount - b)) = 0 := by omega
    rw [h0, List.take_zero, List.drop_zero, List.nil_append]

/-- Witness for claim C6: bound 3, pushes 1,2,3 (window `[3,2,1]`), dest of
length 2, range `[0, 2]`: writes `[3, 2]`, marker becomes `size_t(-1)`. -/
theorem claim_C6_witness :
    (pushAll (mkObject 3 : Object Int) [1, 2, 3]).myImplObj.length
        = (pushAll (mkObject 3 : Object Int) [1, 2, 3]).qBound
    ∧ 0 < 2 ∧ 2 < (pushAll (mkObject 3 : Object Int) [1, 2, 3]).qBound
    ∧ copy (pushAll (mkObject 3 : Object Int) [1, 2, 3]) [0, 0]
        ((2 : Nat) : Int) ((0 : Nat) : Int) =
      .ok (((pushAll (mkObject 3 : Object Int) [1, 2, 3]).myImplObj.drop 0).take
              (min ([0, 0] : List Int).length
                (min (2 - 0 + 1) ((pushAll (mkObject 3 : Object Int) [1, 2, 3]).qCount - 0)))
            ++ ([0, 0] : List Int).drop
              (min ([0, 0] : List Int).length
                (min (2 - 0 + 1) ((pushAll (mkObject 3 : Object Int) [1, 2, 3]).qCount - 0))),
           { pushAll (mkObject 3 : Object Int) [1, 2, 3] with
               mrkCount := int_to_size (((0 : Nat) : Int) - 1) }) :=
  ⟨by decide, by decide, by decide,
   claim_C6_copy_range (pushAll (mkObject 3) [1, 2, 3]) [0, 0] 2 0
     (by decide) (by decide) (by decide)⟩

/-- Counterexample to claim C8 as stated: on a fresh stream of bound 2
(count 0), `secondary_vector(end=1, beg=0)` returns the empty sequence, not
a sequence of the requested range length `end - beg + 1 = 2`: the source
allocates `min(++end - beg, _qCount)` elements, and here `_qCount = 0`. -/
theorem claim_C8_counterexample :
    secondary_vector Int (mkObject 2 : Object Int) 1 0 = .ok ([] : List Int)
    ∧ ([] : List Int).length ≠ 1 - 0 + 1 := by
  refine ⟨by decide, by decide⟩

/-- Claim C8 (amended): for a non-paired stream and a valid normalised range,
`secondary_vector(end, beg)` returns a value-initialised (zero) sequence
whose length is `min(end - beg + 1, C)` — the requested range length capped
by the current count. -/
theorem claim_C8_secondary_vector_amended (s : Object Int) (e b : Nat)
    (hlen : s.myImplObj.length = s.qBound) (hbe : b ≤ e) (he : e < s.qBound)
    (hB : s.qBound ≤ MAX_BOUND_SIZE) :
    secondary_vector Int s (e : Int) (b : Int) =
      .ok (List.replicate (min (e + 1 - b) s.qCount) (0 : Int)) := by
  rw [secondary_vector_ok_of_check s (e : Int) (b : Int) (e : Int) (b : Int)
    (check_adj_ok e b s.myImplObj s.qBound hlen hbe he)]
  have h1 : int_to_size ((e : Int) + 1 - (b : Int)) = e + 1 - b := by
    have h2 : ((e : Int) + 1 - (b : Int)) = ((e + 1 - b : Nat) : Int) := by omega
    rw [h2, int_to_size_of_small]
    have : MAX_BOUND_SIZE < 2 ^ 63 := by decide
    omega
  rw [h1]
  rfl

/-- Witness for the amended claim C8: bound 3, two pushes, range `[0, 2]`:
the requested length 3 is capped by the count 2. -/
theorem claim_C8_witness :
    (pushAll (mkObject 3 : Object Int) [1, 2]).myImplObj.length
        = (pushAll (mkObject 3 : Object Int) [1, 2]).qBound
    ∧ 0 ≤ 2 ∧ 2 < (pushAll (mkObject 3 : Object Int) [1, 2]).qBound
    ∧ (pushAll (mkObject 3 : Object Int) [1, 2]).qBound ≤ MAX_BOUND_SIZE
    ∧ secondary_vector Int (pushAll (mkObject 3 : Object Int) [1, 2])
        ((2 : Nat) : Int) ((0 : Nat) : Int) =
      .ok (List.replicate
            (min (2 + 1 - 0) (pushAll (mkObject 3 : Object Int) [1, 2]).qCount)
            (0 : Int)) :=
  ⟨by decide, by decide, by decide, by decide,
   claim_C8_secondary_vector_amended (pushAll (mkObject 3) [1, 2]) 2 0
     (by decide) (by decide) (by decide) (by decide)⟩

/-- Counterexample to claim C9 as stated: bound 2, a single push (count 1),
`beg = end = 1`, dest of length 1 holding 9.  The fast path of `copy`
unconditionally writes `at(1)` — the value-initialised element 0 beyond the
count — into `dest[0]`, while the range path over `[1, 1]` caps the copied
range at the count and writes nothing.  The two observable results differ,
so the claimed equivalence fails for indices at or beyond the count. -/
theorem claim_C9_counterexample :
    copy (pushAll (mkObject 2 : Object Int) [7]) [9] 1 1 ≠
      copyRangePath (pushAll (mkObject 2 : Object Int) [7]) [9] 1 1 := by
  decide

/-- Claim C9 (amended): for every stream with a consistent deque, every dest
buffer and every normalised index `b` *below the count*, the single-element
fast path of `copy(dest, destLen, b, b)` produces the same writes and the
same marker as the general range-copy path over `[b, b]`. -/
theorem claim_C9_fast_path_amended (s : Object Int) (dest : List Int) (b : Nat)
    (hlen : s.myImplObj.length = s.qBound) (hb : b < s.qCount)
    (hCB : s.qCount ≤ s.qBound) :
    copy s dest (b : Int) (b : Int) = copyRangePath s dest (b : Int) (b : Int) := by
  have hchk := check_adj_ok b b s.myImplObj s.qBound hlen (Nat.le_refl b)
    (by omega)
  rw [copy_ok_of_check s dest (b : Int) (b : Int) (b : Int) (b : Int) hchk,
    copyRangePath_ok_of_check s dest (b : Int) (b : Int) (b : Int) (b : Int) hchk]
  rw [if_pos rfl]
  unfold copy_to_ptr
  simp only [Int.toNat_natCast]
  have hval : (if (b : Int) = 0 then s.myImplObj.headD default
      else s.myImplObj.getD b default) = s.myImplObj.getD b default := by
    by_cases h0 : b = 0
    · subst h0
      rw [if_pos (show ((0 : Nat) : Int) = 0 from by norm_num),
        headD_eq_getD_zero]
    · rw [if_neg (by exact_mod_cast h0)]
  rw [hval]
  cases dest with
  | nil =>
      rw [if_neg (by simp)]
      rfl
  | cons d ds =>
      have hlt : b < min ((d :: ds).length + b) (min (b + 1) s.qCount) := by
        simp only [List.length_cons]
        omega
      rw [if_pos hlt]
      have he1 : min ((d :: ds).length + b) (min (b + 1) s.qCount) - b = 1 := by
        simp only [List.length_cons]
        omega
      rw [he1, take_one_drop s.myImplObj b default (by omega)]
      rfl

/-- Witness for the amended claim C9: bound 2, pushes 7,8 (window `[8,7]`),
dest `[9]`, `b = 1 < C = 2`: both paths write `[7]` and set the marker
to 0. -/
theorem claim_C9_witness :
    (pushAll (mkObject 2 : Object Int) [7, 8]).myImplObj.length
        = (pushAll (mkObject 2 : Object Int) [7, 8]).qBound
    ∧ 1 < (pushAll (mkObject 2 : Object Int) [7, 8]).qCount
    ∧ (pushAll (mkObject 2 : Object Int) [7, 8]).qCount
        ≤ (pushAll (mkObject 2 : Object Int) [7, 8]).qBound
    ∧ copy (pushAll (mkObject 2 : Object Int) [7, 8]) [9]
          ((1 : Nat) : Int) ((1 : Nat) : Int)
        = copyRangePath (pushAll (mkObject 2 : Object Int) [7, 8]) [9]
          ((1 : Nat) : Int) ((1 : Nat) : Int) :=
  ⟨by decide, by decide, by decide,
   claim_C9_fast_path_amended (pushAll (mkObject 2) [7, 8]) [9] 1
     (by decide) (by decide) (by decide)⟩

theorem getD_map_of_lt {γ δ : Type} (f : γ → δ) (l : List γ) (i : Nat)
    (d : γ) (d2 : δ) (h : i < l.length) :
    (l.map f).getD i d2 = f (l.getD i d) := by
  rw [List.getD_eq_getElem _ _ (by simpa using h), List.getD_eq_getElem _ _ h]
  simp

/-- Claim C7: on a fresh paired stream, after any sequence of paired pushes,
for every `i < size()` the pair returned by `both(i)` is exactly the pair
supplied to the `(i+1)`-th most recent push — the primary and secondary
deques stay in lock-step under every push. -/
theorem claim_C7_both_lockstep (B : Nat) (ps : List (Int × Int)) (i : Nat)
    (hi : i < (pushAllPair (mkPObject B : PObject Int Int) ps).qCount) :
    both (pushAllPair (mkPObject B : PObject Int Int) ps) (i : Int) =
      .ok (ps.reverse.getD i (0, 0),
           { pushAllPair (mkPObject B : PObject Int Int) ps with
               mrkCount := int_to_size ((i : Int) - 1) }) := by
  have hl0 : (mkPObject B : PObject Int Int).myImplObj.length
      = (mkPObject B : PObject Int Int).qBound := by
    show (List.replicate (min (min B MAX_BOUND_SIZE) MAX_BOUND_SIZE)
      (default : Int)).length = _
    rw [List.length_replicate]
    rfl
  have hl20 : (mkPObject B : PObject Int Int).myImplSecObj.length
      = (mkPObject B : PObject Int Int).qBound := by
    show (List.replicate (min B MAX_BOUND_SIZE) (default : Int)).length
        = min (min B MAX_BOUND_SIZE) MAX_BOUND_SIZE
    rw [List.length_replicate]
    omega
  obtain ⟨h1, h2, h3, h4⟩ := pushAllPair_state ps (mkPObject B : PObject Int Int)
    hl0 hl20 (Nat.zero_le _)
  have hc0 : (mkPObject B : PObject Int Int).qCount = 0 := rfl
  rw [hc0, Nat.zero_add] at h3
  have hips : i < ps.length := by rw [h3] at hi; omega
  have hib0 : i < (mkPObject B : PObject Int Int).qBound := by
    rw [h3] at hi; omega
  have hlenS : (pushAllPair (mkPObject B : PObject Int Int) ps).myImplObj.length
      = (pushAllPair (mkPObject B : PObject Int Int) ps).qBound := by
    rw [h1, h4, List.length_take, List.length_append, List.length_reverse,
      List.length_map, hl0]
    omega
  have hlen2S : (pushAllPair (mkPObject B : PObject Int Int) ps).myImplSecObj.length
      = (pushAllPair (mkPObject B : PObject Int Int) ps).qBound := by
    rw [h2, h4, List.length_take, List.length_append, List.length_reverse,
      List.length_map, hl20]
    omega
  have hspec := opIndex_spec
    (pushAllPair (mkPObject B : PObject Int Int) ps).toObject i hlenS
    (by rw [h4]; exact hib0)
  have hgf : (pushAllPair (mkPObject B : PObject Int Int) ps).myImplObj.getD i default
      = (ps.reverse.getD i ((0, 0) : Int × Int)).1 := by
    rw [h1, getD_take_of_lt _ _ _ _ hib0,
      getD_append_left _ _ _ _ (by simpa using hips),
      ← List.map_reverse,
      getD_map_of_lt Prod.fst ps.reverse i ((0, 0) : Int × Int) default
        (by simpa using hips)]
  have hsf : (pushAllPair (mkPObject B : PObject Int Int) ps).myImplSecObj.getD i default
      = (ps.reverse.getD i ((0, 0) : Int × Int)).2 := by
    rw [h2, getD_take_of_lt _ _ _ _ hib0,
      getD_append_left _ _ _ _ (by simpa using hips),
      ← List.map_reverse,
      getD_map_of_lt Prod.snd ps.reverse i ((0, 0) : Int × Int) default
        (by simpa using hips)]
  by_cases h0 : i = 0
  · subst h0
    rw [show ((0 : Nat) : Int) = (0 : Int) from by norm_num] at hspec ⊢
    rw [both_ok_zero _ _ _ hspec]
    rw [headD_eq_getD_zero, hgf, hsf, Prod.mk.eta]
  · have hne : ¬ ((i : Nat) : Int) = 0 := by exact_mod_cast h0
    have hchk := check_adj_ok i 0
      (pushAllPair (mkPObject B : PObject Int Int) ps).myImplSecObj
      (pushAllPair (mkPObject B : PObject Int Int) ps).qBound hlen2S
      (Nat.zero_le _) (by rw [h4]; exact hib0)
    rw [Nat.cast_zero] at hchk
    rw [both_ok_pos _ _ _ _ _ _ hne hspec hchk]
    simp only [Int.toNat_natCast]
    rw [hgf, hsf, Prod.mk.eta]

/-- Witness for claim C7: bound 2, pushes (10,1) then (20,2); `both(1)`
returns the older pair (10,1) and sets the marker to 0. -/
theorem claim_C7_witness :
    1 < (pushAllPair (mkPObject 2 : PObject Int Int) [(10, 1), (20, 2)]).qCount
    ∧ both (pushAllPair (mkPObject 2 : PObject Int Int) [(10, 1), (20, 2)])
        ((1 : Nat) : Int) =
      .ok (([(10, 1), (20, 2)] : List (Int × Int)).reverse.getD 1 (0, 0),
           { pushAllPair (mkPObject 2 : PObject Int Int) [(10, 1), (20, 2)] with
               mrkCount := int_to_size (((1 : Nat) : Int) - 1) }) :=
  ⟨by decide, claim_C7_both_lockstep 2 [(10, 1), (20, 2)] 1 (by decide)⟩

end tosdb_data_stream
